import Mathlib

/-!
Verification of the Aser daily-diary pipeline against its specification.

This file shallowly embeds the data-normalization and rendering logic of
the repository (src/utils/gemini_processor.py, src/utils/data_models.py,
src/utils/enhanced_pdf_generator.py) as executable Lean definitions and
proves or refutes the spec's claims about them.

Modelling conventions:
* Python dictionaries are association lists `List (String × PyVal)`;
  `dict.get` is first-match lookup, assignment replaces the first match.
* Python strings are `String`/`List Char`; the claims only exercise ASCII
  text, so character classes (`\s`, `\w`, `[a-z]`, `upper()`) are modelled
  over their ASCII meaning.
* `re.sub` is modelled by left-to-right, non-overlapping scanning exactly
  as the CPython engine scans (a match is consumed whole and scanning
  resumes after it); the specific patterns of the source are each given a
  dedicated scanner.
* While-loops are modelled with an explicit fuel argument that strictly
  bounds the number of iterations, so every definition is structurally
  recursive and kernel-evaluable.
-/

/-- Python runtime values as they occur in the raw extracted structures:
strings, integers, booleans and `None`. -/
inductive PyVal where
  | str (s : String)
  | int (n : Int)
  | bool (b : Bool)
  | none
deriving DecidableEq, Repr

/-- Python truthiness of a value (`if value:`). -/
def PyVal.truthy : PyVal → Bool
  | .str s => s != ""
  | .int n => n != 0
  | .bool b => b
  | .none => false

/-- Python `str(value)`. -/
def PyVal.toPyStr : PyVal → String
  | .str s => s
  | .int n => toString n
  | .bool b => if b then "True" else "False"
  | .none => "None"

/-- ASCII whitespace as recognised by Python's `str.split`, `str.strip`
and the regex class `\s` (the claims use ASCII text only). -/
def pyIsSpace (c : Char) : Bool :=
  c == ' ' || c == '\t' || c == '\n' || c == '\r' || c == '\x0b' || c == '\x0c'

/-- ASCII lower-case letter, the class `[a-z]` without `re.IGNORECASE`. -/
def isAsciiLower (c : Char) : Bool := 'a' ≤ c && c ≤ 'z'

/-- ASCII upper-case letter, the class `[A-Z]` without `re.IGNORECASE`. -/
def isAsciiUpper (c : Char) : Bool := 'A' ≤ c && c ≤ 'Z'

/-- ASCII letter, the class `[a-z]` under `re.IGNORECASE`. -/
def isAsciiLetter (c : Char) : Bool := isAsciiLower c || isAsciiUpper c

/-- ASCII digit, the regex class `\d` on ASCII text. -/
def isAsciiDigit (c : Char) : Bool := '0' ≤ c && c ≤ '9'

/-- Word character, the regex class `\w` on ASCII text. -/
def isWordChar (c : Char) : Bool := isAsciiLetter c || isAsciiDigit c || c == '_'

/-- Lower-case an ASCII letter, other characters unchanged. -/
def asciiLower (c : Char) : Char :=
  if isAsciiUpper c then Char.ofNat (c.toNat + 32) else c

/-- Upper-case an ASCII letter (`str.upper()` on ASCII text). -/
def asciiUpper (c : Char) : Char :=
  if isAsciiLower c then Char.ofNat (c.toNat - 32) else c

/-- Split into maximal whitespace-free words, as Python `str.split()`:
runs of whitespace separate words, edge whitespace yields no empty words.
The accumulator holds the current word reversed. -/
def pyWordsAux : List Char → List Char → List (List Char)
  | [], acc => if acc.isEmpty then [] else [acc.reverse]
  | c :: rest, acc =>
    if pyIsSpace c then
      if acc.isEmpty then pyWordsAux rest [] else acc.reverse :: pyWordsAux rest []
    else pyWordsAux rest (c :: acc)

/-- Python `str.split()` over the character list. -/
def pyWords (cs : List Char) : List (List Char) := pyWordsAux cs []

/-- Join words with single spaces (`' '.join(words)`). -/
def joinWords : List (List Char) → List Char
  | [] => []
  | [w] => w
  | w :: ws => w ++ ' ' :: joinWords ws

/-- Collapse all whitespace runs to single spaces and strip the ends:
`' '.join(s.split())`, also the effect of `re.sub(r'\s+', ' ', s).strip()`. -/
def pyNormWs (cs : List Char) : List Char := joinWords (pyWords cs)

/-- Python `str.strip()` on the character list. -/
def pyStripChars (cs : List Char) : List Char :=
  ((cs.dropWhile pyIsSpace).reverse.dropWhile pyIsSpace).reverse

/-- Python `str.strip()`. -/
def pyStrip (s : String) : String := String.mk (pyStripChars s.toList)

/-- Membership in the class `["\'\s]` of `_clean_text`'s edge-artifact
strip: double quote, single quote or whitespace. -/
def isQuoteSpace (c : Char) : Bool :=
  c == '\x22' || c == '\x27' || pyIsSpace c

/-- Strip of leading and trailing quote/whitespace runs:
`re.sub(r'^["\'\s]+|["\'\s]+$', '', s)`. -/
def stripQuoteSpace (cs : List Char) : List Char :=
  ((cs.dropWhile isQuoteSpace).reverse.dropWhile isQuoteSpace).reverse

/-- One pass of `re.sub(r'([a-z])([A-Z])', r'\1 \2', s)`: insert a space
between a lower-case letter immediately followed by an upper-case letter.
A match consumes both letters (non-overlapping scan). -/
def insertSpaceLU : List Char → List Char
  | [] => []
  | [c] => [c]
  | c₁ :: c₂ :: rest =>
    if isAsciiLower c₁ && isAsciiUpper c₂ then c₁ :: ' ' :: c₂ :: insertSpaceLU rest
    else c₁ :: insertSpaceLU (c₂ :: rest)

/-- Case-insensitive literal match of `word` at the head of the input;
returns the remainder after the word on success. -/
def matchCI : List Char → List Char → Option (List Char)
  | [], cs => some cs
  | _ :: _, [] => Option.none
  | w :: ws, c :: cs => if asciiLower c == asciiLower w then matchCI ws cs else Option.none

/-- Scanner for the merged-word patterns of shape `word([a-z])` →
`word \1` under `re.IGNORECASE`: a case-insensitive occurrence of the word
directly followed by a letter is replaced by the lower-case literal word, a
space and the letter, and scanning resumes after the match. `fuel` bounds
the scan steps (each consumes at least one character). -/
def subWordLetter (word : List Char) : Nat → List Char → List Char
  | 0, cs => cs
  | _ + 1, [] => []
  | fuel + 1, c :: cs =>
    match matchCI word (c :: cs) with
    | some (r :: rs) =>
      if isAsciiLetter r then word ++ ' ' :: r :: subWordLetter word fuel rs
      else c :: subWordLetter word fuel cs
    | some [] => c :: subWordLetter word fuel cs
    | Option.none => c :: subWordLetter word fuel cs

/-- Word boundary `\b` immediately after a word character: end of input or
a non-word character next. -/
def boundaryAfter : List Char → Bool
  | [] => true
  | c :: _ => !isWordChar c

/-- Scanner for the merged-word patterns of shape `([a-z])word\b` →
`\1 word` under `re.IGNORECASE`: a letter directly followed by a
case-insensitive occurrence of the word at a word boundary is replaced by
the letter, a space and the lower-case literal word. -/
def subLetterWord (word : List Char) : Nat → List Char → List Char
  | 0, cs => cs
  | _ + 1, [] => []
  | fuel + 1, c :: cs =>
    if isAsciiLetter c then
      match matchCI word cs with
      | some rest =>
        if boundaryAfter rest then c :: ' ' :: word ++ subLetterWord word fuel rest
        else c :: subLetterWord word fuel cs
      | Option.none => c :: subLetterWord word fuel cs
    else c :: subLetterWord word fuel cs

/-- Apply one shape-A pattern (`word([a-z])` → `word \1`) over the whole
string, with fuel covering every position. -/
def runSubA (word : String) (cs : List Char) : List Char :=
  subWordLetter word.toList (cs.length + 1) cs

/-- Apply one shape-B pattern (`([a-z])word\b` → `\1 word`) over the whole
string, with fuel covering every position. -/
def runSubB (word : String) (cs : List Char) : List Char :=
  subLetterWord word.toList (cs.length + 1) cs

/-- The curated merged-word pattern table of `_clean_text`, applied in
source order, each with `re.IGNORECASE`. -/
def applyWordPatterns (cs : List Char) : List Char :=
  let a := ["loading", "material", "concrete", "steel", "excavation",
            "construction", "equipment"].foldl (fun acc w => runSubA w acc) cs
  ["work", "site", "area", "pipe", "road", "bridge"].foldl (fun acc w => runSubB w acc) a

/-- Embedding of `GeminiProcessor._clean_text`: empty or literal `'null'`
becomes empty; otherwise whitespace is collapsed, edge quote/space
artifacts stripped, a space inserted between a lower-case letter and a
following upper-case letter, the merged-word pattern table applied, and
whitespace collapsed and stripped again. -/
def pyCleanText (text : String) : String :=
  if text == "" || text == "null" then ""
  else
    let cs := pyNormWs text.toList
    let cs := stripQuoteSpace cs
    let cs := insertSpaceLU cs
    let cs := applyWordPatterns cs
    String.mk (pyNormWs cs)

/-- Embedding of `_clean_text(str(value)) if value else ''` as applied to
each raw field value. -/
def cleanPyVal (v : PyVal) : String :=
  if v.truthy then pyCleanText v.toPyStr else ""

example : pyCleanText "  hello   world " = "hello world" := by decide
example : pyCleanText "\x22null\x22" = "null" := by decide
example : pyCleanText "null" = "" := by decide
example : pyCleanText "aBCd" = "a BCd" := by decide
example : pyCleanText "abC" = "ab C" := by decide
example : pyCleanText "LOADINGLOADINGX" = "loading LOADINGX" := by decide
example : pyCleanText "loading LOADINGX" = "loading loading X" := by decide
example : pyCleanText "network" = "net work" := by decide
example : pyCleanText "Zone A" = "Zone A" := by decide
example : pyCleanText "Excavator" = "Excavator" := by decide
example : pyCleanText "loadingmaterial" = "loading material" := by decide

/-- Consume exactly `n` ASCII digits, returning them and the remainder. -/
def digitsExact : Nat → List Char → Option (List Char × List Char)
  | 0, cs => some ([], cs)
  | n + 1, c :: cs =>
    if isAsciiDigit c then (digitsExact n cs).map (fun p => (c :: p.1, p.2))
    else Option.none
  | _ + 1, [] => Option.none

/-- A date separator: slash or hyphen. -/
def isDateSep (c : Char) : Bool := c == '/' || c == '-'

/-- Greedy `\d{1,2}` with backtracking: try two digits, then one, passing
the digits and remainder to the continuation. -/
def grp12 (k : List Char → List Char → Option α) (cs : List Char) : Option α :=
  (match digitsExact 2 cs with
   | some (d, r) => k d r
   | Option.none => Option.none) <|>
  (match digitsExact 1 cs with
   | some (d, r) => k d r
   | Option.none => Option.none)

/-- Require a slash-or-hyphen separator, then continue. -/
def sepThen (k : List Char → Option α) : List Char → Option α
  | c :: r => if isDateSep c then k r else Option.none
  | [] => Option.none

/-- Require at least one whitespace character, consume the maximal run,
then continue (regex `\s+` followed by a class disjoint from `\s`). -/
def spacesThen (k : List Char → Option α) : List Char → Option α
  | c :: r => if pyIsSpace c then k (r.dropWhile pyIsSpace) else Option.none
  | [] => Option.none

/-- Require at least one word character, consume the maximal run (`\w+`
followed by `\s`, which is disjoint), passing run and remainder on. -/
def wordRunThen (k : List Char → List Char → Option α) : List Char → Option α
  | c :: r =>
    if isWordChar c then k (c :: r.takeWhile isWordChar) (r.dropWhile isWordChar)
    else Option.none
  | [] => Option.none

/-- Try a positional matcher at every position, leftmost first:
`re.search` over the pattern matchers below. -/
def scanSearch (m : List Char → Option α) : List Char → Option α
  | [] => m []
  | c :: cs => m (c :: cs) <|> scanSearch m cs

/-- Matcher for the first date pattern, one-or-two digits, separator,
one-or-two digits, separator, four digits, at one position. -/
def dateP1At (cs : List Char) : Option (String × String × String) :=
  grp12 (fun d1 r =>
    sepThen (grp12 (fun d2 r2 =>
      sepThen (fun r3 =>
        (digitsExact 4 r3).map (fun p => (String.mk d1, String.mk d2, String.mk p.1))) r2)) r) cs

/-- Matcher for the second date pattern, four digits, separator,
one-or-two digits, separator, one-or-two digits, at one position. -/
def dateP2At (cs : List Char) : Option (String × String × String) :=
  match digitsExact 4 cs with
  | some (y, r) =>
    sepThen (grp12 (fun d2 r2 =>
      sepThen (grp12 (fun d3 _ =>
        some (String.mk y, String.mk d2, String.mk d3))) r2)) r
  | Option.none => Option.none

/-- Matcher for `(\d{1,2})\s+(\w+)\s+(\d{4})` at one position. -/
def dateP3At (cs : List Char) : Option (String × String × String) :=
  grp12 (fun d1 r =>
    spacesThen (wordRunThen (fun w r2 =>
      spacesThen (fun r3 =>
        (digitsExact 4 r3).map (fun p => (String.mk d1, String.mk w, String.mk p.1))) r2)) r) cs

/-- Python `str.zfill(2)`: left-pad with zeros to width two. -/
def zfill2 (s : String) : String :=
  if s.length ≥ 2 then s else if s.length = 1 then "0" ++ s else "00"

/-- The date rebuild of `_validate_date`: the three captured groups joined
as `g1.zfill(2)-g2.zfill(2)-g3`, in captured order. -/
def joinDateGroups (g : String × String × String) : String :=
  zfill2 g.1 ++ "-" ++ zfill2 g.2.1 ++ "-" ++ g.2.2

/-- Embedding of `_validate_date` on the string form: the three positional
patterns are searched in order and the first match anywhere in the string
is rebuilt with `joinDateGroups`; with no match the stripped string is
returned. -/
def pyValidateDateStr (s : String) : String :=
  match scanSearch dateP1At s.toList with
  | some g => joinDateGroups g
  | Option.none =>
    match scanSearch dateP2At s.toList with
    | some g => joinDateGroups g
    | Option.none =>
      match scanSearch dateP3At s.toList with
      | some g => joinDateGroups g
      | Option.none => pyStrip s

/-- Embedding of `_validate_date`: falsy values and the literal string
`'null'` give the empty string, otherwise the search on `str(date_str)`. -/
def pyValidateDate (v : PyVal) : String :=
  if !v.truthy || v == PyVal.str "null" then "" else pyValidateDateStr v.toPyStr

example : pyValidateDate (.str "3/7/2024") = "03-07-2024" := by decide
example : pyValidateDate (.str "2024/7/3") = "2024-07-3" := by decide
example : pyValidateDate (.str "3 July 2024") = "03-July-2024" := by decide
example : pyValidateDate (.str "created last Tuesday") = "created last Tuesday" := by decide
example : pyValidateDate (.str "123-4-2024") = "23-04-2024" := by decide
example : pyValidateDate (.str "3 7 2024") = "03-07-2024" := by decide
example : pyValidateDate (.str "2024-07-3") = "2024-07-3" := by decide
example : pyValidateDate (.str "") = "" := by decide
example : pyValidateDate (.str "null") = "" := by decide
example : pyValidateDate (.str " null ") = "null" := by decide

/-- An entry of a raw list field: a dictionary-shaped item, or anything
else (skipped by the `isinstance(item, dict)` check). -/
inductive RawEntry where
  | dict (item : List (String × PyVal))
  | nondict
deriving DecidableEq, Repr

/-- Python `dict.get(k)`: first-match lookup in the association list. -/
def dictGet : List (String × PyVal) → String → Option PyVal
  | [], _ => Option.none
  | (k', v) :: rest, k => if k' == k then some v else dictGet rest k

/-- Python `dict[k] = v`: replace the value at the first occurrence of the
key, appending when absent. -/
def setAssoc : List (String × α) → String → α → List (String × α)
  | [], k, v => [(k, v)]
  | (k', v') :: rest, k, v =>
    if k' == k then (k, v) :: rest else (k', v') :: setAssoc rest k v

/-- Cleaning of one declared non-serial field:
`self._clean_text(str(item.get(field, ''))) if item.get(field, '') else ''`. -/
def cleanFieldVal (item : List (String × PyVal)) (f : String) : String :=
  match dictGet item f with
  | some v => if v.truthy then pyCleanText v.toPyStr else ""
  | Option.none => ""

/-- The cleaned item built for a raw item at position `i` (0-based):
`'sn'` holds the raw `sn` value or `i + 1`, every other declared field its
cleaned text. Keys appear in insertion order as in the Python dict. -/
def buildCleaned (fields : List String) (item : List (String × PyVal)) (i : Nat) :
    List (String × PyVal) :=
  ("sn", (dictGet item "sn").getD (.int (i + 1))) ::
    (fields.filter (fun f => f != "sn")).map (fun f => (f, PyVal.str (cleanFieldVal item f)))

/-- String read of a cleaned item's field (`cleaned_item.get(field, '')`;
all non-serial values are strings by construction). -/
def cleanedGetStr (item : List (String × PyVal)) (k : String) : String :=
  match dictGet item k with
  | some (PyVal.str s) => s
  | _ => ""

/-- The meaningful-content test: some declared non-serial field of the
cleaned item is a non-empty string. -/
def hasContent (fields : List String) (item : List (String × PyVal)) : Bool :=
  fields.any (fun f => f != "sn" && cleanedGetStr item f != "")

/-- Equipment-number normalisation for duplicate detection:
`re.sub(r'\s+', '', equipment_no.upper())` — upper-case, then remove all
whitespace (and nothing else: punctuation survives). -/
def normalizeNo (s : String) : String :=
  String.mk ((s.toList.map asciiUpper).filter (fun c => !pyIsSpace c))

/-- The main loop of `_validate_and_clean_list`: `seen` is the set of
normalised equipment numbers retained so far, `i` the enumeration index.
Non-dict entries are skipped; equipment lists (field sets containing both
`equipment` and `no`) drop an item whose non-empty normalised number was
seen before, recording the number before the content check; an item with
no meaningful content is dropped. -/
def cleanLoop (fields : List String) :
    List String → Nat → List RawEntry → List (List (String × PyVal))
  | _, _, [] => []
  | seen, i, RawEntry.nondict :: rest => cleanLoop fields seen (i + 1) rest
  | seen, i, RawEntry.dict item :: rest =>
    let ci := buildCleaned fields item i
    if fields.contains "equipment" && fields.contains "no" then
      let eqNo := pyStrip (cleanedGetStr ci "no")
      if eqNo != "" then
        let nn := normalizeNo eqNo
        if seen.contains nn then cleanLoop fields seen (i + 1) rest
        else if hasContent fields ci then ci :: cleanLoop fields (nn :: seen) (i + 1) rest
        else cleanLoop fields (nn :: seen) (i + 1) rest
      else if hasContent fields ci then ci :: cleanLoop fields seen (i + 1) rest
      else cleanLoop fields seen (i + 1) rest
    else if hasContent fields ci then ci :: cleanLoop fields seen (i + 1) rest
    else cleanLoop fields seen (i + 1) rest

/-- The final renumbering pass: `item['sn'] = i + 1` over the surviving
items, `n` the number of items already renumbered. -/
def renumberFrom (n : Nat) : List (List (String × PyVal)) → List (List (String × PyVal))
  | [] => []
  | it :: rest => setAssoc it "sn" (PyVal.int (n + 1)) :: renumberFrom (n + 1) rest

/-- Embedding of `GeminiProcessor._validate_and_clean_list`. -/
def validateAndCleanList (fields : List String) (raw : List RawEntry) :
    List (List (String × PyVal)) :=
  renumberFrom 0 (cleanLoop fields [] 0 raw)

/-- Declared fields of an `activities` row. -/
def activityFields : List String := ["sn", "description", "location", "quantity", "unit"]

/-- Declared fields of an `equipment` row. -/
def equipmentFields : List String :=
  ["sn", "equipment", "no", "operating_hours", "idle_hours", "status", "remarks"]

/-- Declared fields of a `personnel` row. -/
def personnelFields : List String := ["sn", "personnel", "no", "hours", "role"]

/-- Declared fields of a `materials` row. -/
def materialFields : List String := ["type", "unit", "quantity", "location"]

/-- Declared fields of an `unsafe_acts` row. -/
def unsafeActFields : List String := ["sn", "description", "severity", "action_taken"]

example :
    validateAndCleanList activityFields
      [.dict [("sn", .int 1), ("description", .str ""), ("location", .str "Zone A"),
              ("quantity", .str ""), ("unit", .str "")]] =
    [[("sn", .int 1), ("description", .str ""), ("location", .str "Zone A"),
      ("quantity", .str ""), ("unit", .str "")]] := by decide

example :
    validateAndCleanList equipmentFields
      [.dict [("sn", .int 1), ("equipment", .str "Truck"), ("no", .str "AB-12")],
       .dict [("sn", .int 2), ("equipment", .str "Truck"), ("no", .str "ab 12")]] =
    [[("sn", .int 1), ("equipment", .str "Truck"), ("no", .str "AB-12"),
      ("operating_hours", .str ""), ("idle_hours", .str ""), ("status", .str ""),
      ("remarks", .str "")],
     [("sn", .int 2), ("equipment", .str "Truck"), ("no", .str "ab 12"),
      ("operating_hours", .str ""), ("idle_hours", .str ""), ("status", .str ""),
      ("remarks", .str "")]] := by decide

example :
    validateAndCleanList equipmentFields
      [.dict [("sn", .int 1), ("equipment", .str "Truck"), ("no", .str "AB-12")],
       .dict [("sn", .int 2), ("equipment", .str "Lorry"), ("no", .str "ab-12")]] =
    [[("sn", .int 1), ("equipment", .str "Truck"), ("no", .str "AB-12"),
      ("operating_hours", .str ""), ("idle_hours", .str ""), ("status", .str ""),
      ("remarks", .str "")]] := by decide

example :
    validateAndCleanList materialFields
      [.dict [("type", .str "Cement"), ("unit", .str "bags"), ("quantity", .str "10"),
              ("location", .str "")]] =
    [[("sn", .int 1), ("type", .str "Cement"), ("unit", .str "bags"),
      ("quantity", .str "10"), ("location", .str "")]] := by decide

/-- A raw list-field value: a Python list of entries, or any non-list
value (replaced by the empty list by the `isinstance` check). -/
inductive RawListVal where
  | list (rows : List RawEntry)
  | other
deriving DecidableEq, Repr

/-- The raw structured data handed to `convert_to_daily_diary_data`, one
field per key it reads; an absent key is the falsy default the
corresponding `get` supplies. -/
structure RawRecord where
  project : PyVal := .str ""
  employer : PyVal := .str ""
  consultant : PyVal := .str ""
  contractor : PyVal := .str ""
  location : PyVal := .str ""
  weather : PyVal := .str ""
  near_miss : PyVal := .str ""
  obstruction : PyVal := .str ""
  engineers_note : PyVal := .str ""
  prepared_by : PyVal := .str ""
  checked_by : PyVal := .str ""
  approved_by : PyVal := .str ""
  document_number : PyVal := .str ""
  page_number : PyVal := .str ""
  revision : PyVal := .str ""
  date : PyVal := .str ""
  time_morning : PyVal := .bool false
  time_afternoon : PyVal := .bool false
  activities : RawListVal := .list []
  equipment : RawListVal := .list []
  personnel : RawListVal := .list []
  materials : RawListVal := .list []
  unsafe_acts : RawListVal := .list []
deriving DecidableEq, Repr

/-- The canonical record, mirroring `DailyDiaryData` of
`src/utils/data_models.py` with its field defaults; list rows stay
dictionary-shaped as in the dataclass (`List[Dict[str, Any]]`). -/
structure DailyDiaryData where
  project : String := ""
  employer : String := ""
  consultant : String := ""
  contractor : String := ""
  date : String := ""
  time_morning : Bool := false
  time_afternoon : Bool := false
  location : String := ""
  weather : String := "Sunny/Dry"
  activities : List (List (String × PyVal)) := []
  equipment : List (List (String × PyVal)) := []
  personnel : List (List (String × PyVal)) := []
  materials : List (List (String × PyVal)) := []
  unsafe_acts : List (List (String × PyVal)) := []
  near_miss : String := ""
  obstruction : String := ""
  engineers_note : String := ""
  prepared_by : String := ""
  checked_by : String := ""
  approved_by : String := ""
  document_number : String := ""
  page_number : String := ""
  revision : String := ""
deriving DecidableEq, Repr

/-- List-field conversion: run `_validate_and_clean_list` on a list value,
replace a non-list value by the empty list. -/
def convertList (fields : List String) : RawListVal → List (List (String × PyVal))
  | .list rows => validateAndCleanList fields rows
  | .other => []

/-- Embedding of `GeminiProcessor.convert_to_daily_diary_data`: text
fields cleaned, the date validated, booleans coerced by truthiness, list
fields validated and cleaned, assembled via `DailyDiaryData.from_dict`
(the identity on a fully-keyed dict). -/
def convertToDailyDiaryData (r : RawRecord) : DailyDiaryData where
  project := cleanPyVal r.project
  employer := cleanPyVal r.employer
  consultant := cleanPyVal r.consultant
  contractor := cleanPyVal r.contractor
  location := cleanPyVal r.location
  weather := cleanPyVal r.weather
  near_miss := cleanPyVal r.near_miss
  obstruction := cleanPyVal r.obstruction
  engineers_note := cleanPyVal r.engineers_note
  prepared_by := cleanPyVal r.prepared_by
  checked_by := cleanPyVal r.checked_by
  approved_by := cleanPyVal r.approved_by
  document_number := cleanPyVal r.document_number
  page_number := cleanPyVal r.page_number
  revision := cleanPyVal r.revision
  date := pyValidateDate r.date
  time_morning := r.time_morning.truthy
  time_afternoon := r.time_afternoon.truthy
  activities := convertList activityFields r.activities
  equipment := convertList equipmentFields r.equipment
  personnel := convertList personnelFields r.personnel
  materials := convertList materialFields r.materials
  unsafe_acts := convertList unsafeActFields r.unsafe_acts

/-- Embedding of `DailyDiaryData.to_dict` read back as a raw structure:
strings become Python strings, booleans Python booleans, the row lists
Python lists of dicts. The pair with `from_dict` is loss-free, so this is
the record as `convert_to_daily_diary_data` would receive it again. -/
def toRawDict (d : DailyDiaryData) : RawRecord where
  project := .str d.project
  employer := .str d.employer
  consultant := .str d.consultant
  contractor := .str d.contractor
  location := .str d.location
  weather := .str d.weather
  near_miss := .str d.near_miss
  obstruction := .str d.obstruction
  engineers_note := .str d.engineers_note
  prepared_by := .str d.prepared_by
  checked_by := .str d.checked_by
  approved_by := .str d.approved_by
  document_number := .str d.document_number
  page_number := .str d.page_number
  revision := .str d.revision
  date := .str d.date
  time_morning := .bool d.time_morning
  time_afternoon := .bool d.time_afternoon
  activities := .list (d.activities.map RawEntry.dict)
  equipment := .list (d.equipment.map RawEntry.dict)
  personnel := .list (d.personnel.map RawEntry.dict)
  materials := .list (d.materials.map RawEntry.dict)
  unsafe_acts := .list (d.unsafe_acts.map RawEntry.dict)

/-- Data rows drawn by a two-sub-column table section: for each visible
row index `i` below the per-sub-column capacity, the left cell shows item
`i` and the right cell item `i + rowsPerCol`, each present only when the item
exists; pairs are (item index, item). This is the data-row selection of
`_draw_equipment_section` (capacity 5) and `_draw_personnel_section`
(capacity 14); geometry, fonts and grid lines are not modelled. -/
def drawnTwoColRows (rowsPerCol : Nat) (items : List α) : List (Nat × α) :=
  (List.range rowsPerCol).flatMap fun i =>
    ((items.get? i).map fun x => (i, x)).toList ++
      ((items.get? (i + rowsPerCol)).map fun x => (i + rowsPerCol, x)).toList

/-- Data rows drawn by `_draw_personnel_section`: two sub-columns of 14
rows each. -/
def drawnPersonnelRows (items : List α) : List (Nat × α) := drawnTwoColRows 14 items

/-- Data rows drawn by `_draw_equipment_section`: two sub-columns of 5
rows each. -/
def drawnEquipmentRows (items : List α) : List (Nat × α) := drawnTwoColRows 5 items

/-- Data rows drawn by `_draw_unsafe_acts_section`: a single column of 2
rows. -/
def drawnUnsafeActRows (items : List α) : List (Nat × α) :=
  (List.range 2).flatMap fun i => ((items.get? i).map fun x => (i, x)).toList

/-- Width of a string under a per-character width function; ReportLab's
`stringWidth` for a fixed font is additive over characters. -/
def strWidth (w : Char → Nat) (cs : List Char) : Nat := (cs.map w).sum

/-- The three-character ellipsis appended by `_draw_text_in_cell`. -/
def ellipsisChars : List Char := ['.', '.', '.']

/-- The truncation loop of `_draw_text_in_cell`: while the text is
non-empty and text-plus-ellipsis exceeds the width, drop the last
character. `fuel` bounds the iterations (one character per step). -/
def truncFit (w : Char → Nat) (maxW : Nat) : Nat → List Char → List Char
  | 0, cs => cs
  | _ + 1, [] => []
  | fuel + 1, c :: cs =>
    if strWidth w ((c :: cs) ++ ellipsisChars) > maxW then
      truncFit w maxW fuel (c :: cs).dropLast
    else c :: cs

/-- Embedding of `EnhancedPDFGenerator._draw_text_in_cell`: falsy text
draws nothing; fitting text is drawn unchanged; otherwise characters are
trimmed from the end until the text plus `"..."` fits, and the truncated
text plus ellipsis is drawn — the empty string when everything was
trimmed. The result is the string passed to `drawString`, if any. -/
def drawTextInCell (w : Char → Nat) (text : String) (maxW : Nat) : Option String :=
  if text == "" then Option.none
  else if strWidth w text.toList ≤ maxW then some text
  else
    let t := truncFit w maxW text.toList.length text.toList
    some (if t.isEmpty then "" else String.mk (t ++ ellipsisChars))

/-- Modelled from the spec: the text-fitting policy of §4.4 as the spec
words it — greedily pack words into lines not exceeding the width; once
the line-count budget is exhausted, truncate the last line and append an
ellipsis, trimming characters until it fits. Stated only to compare with
the source's `_draw_text_in_cell` above. -/
def specFitTextLines (w : Char → Nat) (maxW maxLines : Nat) (text : String) : List String :=
  let words := pyWords text.toList
  let pack : List (List Char) → List (List Char) := fun ws =>
    ws.foldl
      (fun lines word =>
        match lines.getLast? with
        | Option.none => [word]
        | some last =>
          let candidate := last ++ ' ' :: word
          if strWidth w candidate ≤ maxW then lines.dropLast ++ [candidate]
          else lines ++ [word])
      []
  let lines := pack words
  if lines.length ≤ maxLines then lines.map String.mk
  else
    let kept := lines.take maxLines
    match kept.getLast? with
    | Option.none => []
    | some last =>
      let t := truncFit w maxW last.length last
      (kept.dropLast).map String.mk ++ [String.mk (t ++ ellipsisChars)]

/-- JSON whitespace accepted between tokens by `json.loads`. -/
def jsonSkipWs (cs : List Char) : List Char :=
  cs.dropWhile (fun c => c == ' ' || c == '\t' || c == '\n' || c == '\r')

/-- Validate a literal's remaining characters. -/
def jsonLit (lit : List Char) (cs : List Char) : Option (List Char) :=
  if lit.isPrefixOf cs then some (cs.drop lit.length) else Option.none

/-- Validate the part of a JSON number after its integer digits: optional
fraction, optional exponent. -/
def jsonNumTail (cs : List Char) : Option (List Char) :=
  let frac : Option (List Char) :=
    match cs with
    | '.' :: r =>
      match r with
      | d :: _ => if isAsciiDigit d then some (r.dropWhile isAsciiDigit) else Option.none
      | [] => Option.none
    | _ => some cs
  match frac with
  | Option.none => Option.none
  | some cs2 =>
    match cs2 with
    | e :: r =>
      if e == 'e' || e == 'E' then
        let r2 := match r with
          | s :: r' => if s == '+' || s == '-' then r' else r
          | [] => r
        match r2 with
        | d :: _ => if isAsciiDigit d then some (r2.dropWhile isAsciiDigit) else Option.none
        | [] => Option.none
      else some cs2
    | [] => some cs2

/-- Validate a JSON number (after an optional leading minus was handled):
`0` or a non-zero-led digit run, then `jsonNumTail`. -/
def jsonNumBody (cs : List Char) : Option (List Char) :=
  match cs with
  | c :: r =>
    if c == '0' then jsonNumTail r
    else if isAsciiDigit c then jsonNumTail (r.dropWhile isAsciiDigit)
    else Option.none
  | [] => Option.none

/-- Hexadecimal digit for `\uXXXX` escapes. -/
def isHexDigit (c : Char) : Bool :=
  isAsciiDigit c || ('a' ≤ c && c ≤ 'f') || ('A' ≤ c && c ≤ 'F')

/-- Validate the body of a JSON string after the opening quote, consuming
through the closing quote; control characters are rejected (strict mode),
escapes follow the JSON grammar. -/
def jsonStringBody : Nat → List Char → Option (List Char)
  | 0, _ => Option.none
  | _ + 1, [] => Option.none
  | fuel + 1, c :: rest =>
    if c == '\x22' then some rest
    else if c == '\\' then
      match rest with
      | e :: r2 =>
        if e == '\x22' || e == '\\' || e == '/' || e == 'b' || e == 'f' ||
            e == 'n' || e == 'r' || e == 't' then jsonStringBody fuel r2
        else if e == 'u' then
          if (r2.take 4).length = 4 && (r2.take 4).all isHexDigit then
            jsonStringBody fuel (r2.drop 4)
          else Option.none
        else Option.none
      | [] => Option.none
    else if c.toNat < 32 then Option.none
    else jsonStringBody fuel rest

mutual

/-- Validate one JSON value at the head of the input (no leading
whitespace), returning the remainder. Python's `json.loads` defaults also
accept `NaN`, `Infinity` and `-Infinity`. -/
def jsonValue : Nat → List Char → Option (List Char)
  | 0, _ => Option.none
  | fuel + 1, cs =>
    match cs with
    | [] => Option.none
    | c :: rest =>
      if c == 'n' then jsonLit "ull".toList rest
      else if c == 't' then jsonLit "rue".toList rest
      else if c == 'f' then jsonLit "alse".toList rest
      else if c == 'N' then jsonLit "aN".toList rest
      else if c == 'I' then jsonLit "nfinity".toList rest
      else if c == '-' then
        if "Infinity".toList.isPrefixOf rest then some (rest.drop 8)
        else jsonNumBody rest
      else if c == '\x22' then jsonStringBody fuel rest
      else if c == '[' then
        let inner := jsonSkipWs rest
        match inner with
        | ']' :: r => some r
        | _ => jsonArrayItems fuel inner
      else if c == '\x7b' then
        let inner := jsonSkipWs rest
        match inner with
        | d :: r => if d == '\x7d' then some r else jsonObjectItems fuel (d :: r)
        | [] => Option.none
      else jsonNumBody cs

/-- Validate the comma-separated items of a non-empty JSON array, through
the closing bracket. -/
def jsonArrayItems : Nat → List Char → Option (List Char)
  | 0, _ => Option.none
  | fuel + 1, cs =>
    match jsonValue fuel cs with
    | some r =>
      match jsonSkipWs r with
      | ',' :: r2 => jsonArrayItems fuel (jsonSkipWs r2)
      | ']' :: r2 => some r2
      | _ => Option.none
    | Option.none => Option.none

/-- Validate the comma-separated members of a non-empty JSON object,
through the closing brace. -/
def jsonObjectItems : Nat → List Char → Option (List Char)
  | 0, _ => Option.none
  | fuel + 1, cs =>
    match cs with
    | c :: rest =>
      if c == '\x22' then
        match jsonStringBody fuel rest with
        | some r =>
          match jsonSkipWs r with
          | ':' :: r2 =>
            match jsonValue fuel (jsonSkipWs r2) with
            | some r3 =>
              match jsonSkipWs r3 with
              | ',' :: r4 => jsonObjectItems fuel (jsonSkipWs r4)
              | d :: r4 => if d == '\x7d' then some r4 else Option.none
              | [] => Option.none
            | Option.none => Option.none
          | _ => Option.none
        | Option.none => Option.none
      else Option.none
    | [] => Option.none

end

/-- Whether `json.loads` accepts the whole string as one JSON document. -/
def jsonValid (s : String) : Bool :=
  match jsonValue (2 * s.length + 4) (jsonSkipWs s.toList) with
  | some rest => (jsonSkipWs rest).isEmpty
  | Option.none => false

example : jsonValid "\x7b\x22a\x22: [1, 2.5e3, null, true]\x7d" = true := by decide
example : jsonValid "\x7bnot json\x7d" = false := by decide
example : jsonValid "42" = true := by decide
example : jsonValid "[1,]" = false := by decide
example : jsonValid "  \x22text\x22  " = true := by decide

/-- Values of the fallback key-value extraction dictionary: strings,
booleans and empty lists. -/
inductive EVal where
  | s (v : String)
  | b (v : Bool)
  | emptyList
deriving DecidableEq, Repr

/-- The fully-defaulted dictionary `extract_key_value_from_text` starts
from, keys in source order. -/
def defaultExtracted : List (String × EVal) :=
  [("project", .s ""), ("employer", .s ""), ("consultant", .s ""),
   ("contractor", .s ""), ("date", .s ""), ("time_morning", .b false),
   ("time_afternoon", .b false), ("location", .s ""), ("weather", .s "Sunny/Dry"),
   ("activities", .emptyList), ("equipment", .emptyList), ("personnel", .emptyList),
   ("materials", .emptyList), ("unsafe_acts", .emptyList), ("near_miss", .s ""),
   ("obstruction", .s ""), ("engineers_note", .s ""), ("prepared_by", .s ""),
   ("checked_by", .s ""), ("approved_by", .s ""), ("document_number", .s ""),
   ("page_number", .s ""), ("revision", .s "")]

/-- Colon or whitespace, the class the key-value patterns allow between a
key and its captured value. -/
def isColonSpace (c : Char) : Bool := c == ':' || pyIsSpace c

/-- One-position matcher for the pattern `key[:\s]*([^\n]+)` under
`re.IGNORECASE`: the key case-insensitively, a greedy colon/whitespace
run, then at least one non-newline character captured up to the next
newline. When the run reaches the end of the input the engine backtracks
into it, capturing its last non-newline character alone. -/
def kvMatchAt (key : List Char) (cs : List Char) : Option String :=
  match matchCI key cs with
  | some rest =>
    let run := rest.takeWhile isColonSpace
    let after := rest.dropWhile isColonSpace
    match after with
    | _ :: _ => some (String.mk (after.takeWhile (fun c => c != '\n')))
    | [] =>
      match (run.reverse.dropWhile (fun c => c == '\n')).head? with
      | some c => some (String.mk [c])
      | Option.none => Option.none
  | Option.none => Option.none

/-- The `re.search` of one key's pattern over the text, with the captured
group stripped as the source does (`match.group(1).strip()`). -/
def kvSearch (key : String) (text : String) : Option String :=
  (scanSearch (kvMatchAt key.toList) text.toList).map pyStrip

/-- Embedding of `GeminiProcessor.extract_key_value_from_text`: the
defaulted dictionary, updated for each of the seven scalar patterns whose
search matches. It returns a dictionary for every input. -/
def extractKeyValueFromText (text : String) : List (String × EVal) :=
  ["project", "employer", "consultant", "contractor", "date", "location",
   "weather"].foldl
    (fun acc k =>
      match kvSearch k text with
      | some v => setAssoc acc k (EVal.s v)
      | Option.none => acc)
    defaultExtracted

/-- The substring `re.search(r'\x7b.*\x7d', s, re.DOTALL)` finds: from
the first opening brace to the last closing brace, when the latter comes
after the former. -/
def braceSpan (s : String) : Option String :=
  let cs := s.toList
  match cs.findIdx? (fun c => c == '\x7b') with
  | some i =>
    match cs.reverse.findIdx? (fun c => c == '\x7d') with
    | some rj =>
      let j := cs.length - 1 - rj
      if i < j then some (String.mk ((cs.drop i).take (j - i + 1))) else Option.none
    | Option.none => Option.none
  | Option.none => Option.none

/-- Result of `parse_gemini_response`: a successfully parsed JSON payload
(the substring handed to `json.loads`), or the regex-extracted fallback
dictionary. -/
inductive GeminiParse where
  | json (payload : String)
  | extracted (data : List (String × EVal))
deriving DecidableEq, Repr

/-- Embedding of `GeminiProcessor.parse_gemini_response`: the stripped
response is searched for a first-brace-to-last-brace region; if found, it
is parsed as JSON and a parse failure propagates to the outer handler,
which returns `none` — the remaining tiers are not attempted. Only when
no brace region exists is the whole text tried as JSON, and on failure
the regex key-value extraction returned. -/
def parseGeminiResponse (responseText : String) : Option GeminiParse :=
  let cleaned := pyStrip responseText
  match braceSpan cleaned with
  | some sub => if jsonValid sub then some (.json sub) else Option.none
  | Option.none =>
    if jsonValid cleaned then some (.json cleaned)
    else some (.extracted (extractKeyValueFromText cleaned))

example : parseGeminiResponse "\x7bnot json\x7d" = Option.none := by decide
example : parseGeminiResponse "pre \x7b\x22date\x22: \x221-2-2024\x22\x7d post" =
    some (.json "\x7b\x22date\x22: \x221-2-2024\x22\x7d") := by decide
example : parseGeminiResponse "42" = some (.json "42") := by decide
example : kvSearch "project" "Project: Alpha Dam\nRest" = some "Alpha Dam" := by decide
example : kvSearch "project" "project:\n" = some ":" := by decide
example : kvSearch "project" "project: \n\n" = some "" := by decide
example : kvSearch "project" "no such key" = Option.none := by decide

/-- Looking up the key just assigned returns the assigned value. -/
theorem dictGet_setAssoc_self (l : List (String × PyVal)) (k : String) (v : PyVal) :
    dictGet (setAssoc l k v) k = some v := by
  induction l with
  | nil => simp [setAssoc, dictGet]
  | cons p rest ih =>
    rcases p with ⟨k₀, v₀⟩
    by_cases h : k₀ = k
    · simp [setAssoc, dictGet, h]
    · simp [setAssoc, dictGet, h, ih]

/-- Assigning one key leaves lookups of other keys unchanged. -/
theorem dictGet_setAssoc_ne (l : List (String × PyVal)) (k k' : String) (v : PyVal)
    (h : k' ≠ k) : dictGet (setAssoc l k v) k' = dictGet l k' := by
  induction l with
  | nil => simp [setAssoc, dictGet, Ne.symm h]
  | cons p rest ih =>
    rcases p with ⟨k₀, v₀⟩
    by_cases hp : k₀ = k
    · subst hp
      simp [setAssoc, dictGet, Ne.symm h]
    · by_cases hq : k₀ = k'
      · simp [setAssoc, dictGet, hp, hq, h]
      · simp [setAssoc, dictGet, hp, hq, ih]

/-- Renumbering preserves the number of rows. -/
theorem renumberFrom_length (l : List (List (String × PyVal))) (n : Nat) :
    (renumberFrom n l).length = l.length := by
  induction l generalizing n with
  | nil => rfl
  | cons it rest ih => simp [renumberFrom, ih]

/-- The serial numbers after renumbering are consecutive integers from
`n + 1`. -/
theorem renumberFrom_map_sn (l : List (List (String × PyVal))) (n : Nat) :
    (renumberFrom n l).map (fun it => dictGet it "sn") =
      (List.range' (n + 1) l.length).map (fun k => some (PyVal.int k)) := by
  induction l generalizing n with
  | nil => rfl
  | cons it rest ih =>
    simp only [renumberFrom, List.length_cons, List.range'_succ, List.map_cons,
      dictGet_setAssoc_self]
    exact congrArg _ (ih (n + 1))

/-- C1. Serial-number contiguity: for every declared field set and every
raw input list, the `sn` values over the normalized rows, in retained
order, are exactly `1, 2, ..., N` for `N` the number of surviving rows. -/
theorem serial_numbers_contiguous (fields : List String) (raw : List RawEntry) :
    (validateAndCleanList fields raw).map (fun it => dictGet it "sn") =
      (List.range' 1 (validateAndCleanList fields raw).length).map
        (fun k => some (PyVal.int k)) := by
  unfold validateAndCleanList
  rw [renumberFrom_length]
  exact renumberFrom_map_sn _ 0

/-- `any` only depends on the predicate's values on the list. -/
theorem anyCongr {l : List α} {p q : α → Bool} (h : ∀ x ∈ l, p x = q x) :
    l.any p = l.any q := by
  induction l with
  | nil => rfl
  | cons x xs ih =>
    simp only [List.any_cons]
    rw [h x (by simp), ih (fun y hy => h y (by simp [hy]))]

/-- Lookup in a key-tagged map hits the tagging function. -/
theorem dictGet_keyMap (fields : List String) (g : String → PyVal) (f : String) :
    dictGet (fields.map (fun x => (x, g x))) f =
      if f ∈ fields then some (g f) else Option.none := by
  induction fields with
  | nil => simp [dictGet]
  | cons x xs ih =>
    by_cases hx : x = f
    · simp [dictGet, hx]
    · simp [dictGet, hx, ih, Ne.symm hx]

/-- Non-serial lookup in a freshly built cleaned item. -/
theorem dictGet_buildCleaned (fields : List String) (item : List (String × PyVal))
    (i : Nat) (f : String) (hf : f ≠ "sn") :
    dictGet (buildCleaned fields item i) f =
      if f ∈ fields then some (PyVal.str (cleanFieldVal item f)) else Option.none := by
  have hsf : ¬ (("sn" : String) = f) := fun hc => hf hc.symm
  unfold buildCleaned
  simp only [dictGet, beq_iff_eq, if_neg hsf]
  rw [dictGet_keyMap (fields.filter (fun x => x != "sn"))
      (fun y => PyVal.str (cleanFieldVal item y)) f]
  by_cases hmem : f ∈ fields
  · rw [if_pos (by simp [List.mem_filter, hmem, hf]), if_pos hmem]
  · rw [if_neg (by simp [List.mem_filter, hmem]), if_neg hmem]

/-- A declared non-serial field of a freshly built cleaned item holds its
cleaned value. -/
theorem cleanedGetStr_buildCleaned (fields : List String) (item : List (String × PyVal))
    (i : Nat) (f : String) (hf : f ≠ "sn") :
    cleanedGetStr (buildCleaned fields item i) f =
      if f ∈ fields then cleanFieldVal item f else "" := by
  unfold cleanedGetStr
  rw [dictGet_buildCleaned fields item i f hf]
  by_cases hmem : f ∈ fields
  · rw [if_pos hmem, if_pos hmem]
  · rw [if_neg hmem, if_neg hmem]

/-- The meaningful-content test on a built item is the content test on the
raw item's cleaned declared fields. -/
theorem hasContent_buildCleaned (fields : List String) (item : List (String × PyVal))
    (i : Nat) :
    hasContent fields (buildCleaned fields item i) =
      fields.any (fun f => f != "sn" && cleanFieldVal item f != "") := by
  unfold hasContent
  refine anyCongr (fun f hmem => ?_)
  by_cases hf : f = "sn"
  · simp [hf]
  · rw [cleanedGetStr_buildCleaned fields item i f hf, if_pos hmem]

/-- Whether a raw entry survives the content check of normalization: it is
dictionary-shaped and some declared non-serial field is non-empty after
cleaning. -/
def rowKept (fields : List String) : RawEntry → Bool
  | .dict item => fields.any (fun f => f != "sn" && cleanFieldVal item f != "")
  | .nondict => false

/-- Renumbering does not change a non-serial field of a row. -/
theorem cleanedGetStr_renumber (it : List (String × PyVal)) (v : PyVal) (f : String)
    (hf : f ≠ "sn") : cleanedGetStr (setAssoc it "sn" v) f = cleanedGetStr it f := by
  unfold cleanedGetStr
  rw [dictGet_setAssoc_ne it "sn" f v hf]

/-- Renumbering does not change the content test. -/
theorem hasContent_renumber (fields : List String) (it : List (String × PyVal))
    (v : PyVal) : hasContent fields (setAssoc it "sn" v) = hasContent fields it := by
  unfold hasContent
  refine anyCongr (fun f _ => ?_)
  by_cases hf : f = "sn"
  · simp [hf]
  · rw [cleanedGetStr_renumber it v f hf]

/-- Every row the main loop keeps passes the content test, whatever the
dedup state. -/
theorem cleanLoop_content (fields : List String) (raw : List RawEntry)
    (seen : List String) (i : Nat) :
    ∀ it ∈ cleanLoop fields seen i raw, hasContent fields it = true := by
  induction raw generalizing seen i with
  | nil => intro it hit; simp [cleanLoop] at hit
  | cons e rest ih =>
    intro it hit
    cases e with
    | nondict => exact ih seen (i + 1) it (by simpa [cleanLoop] using hit)
    | dict item =>
      simp only [cleanLoop] at hit
      by_cases hded : (fields.contains "equipment" && fields.contains "no") = true
      · rw [if_pos hded] at hit
        by_cases hno : (pyStrip (cleanedGetStr (buildCleaned fields item i) "no") != "") = true
        · rw [if_pos hno] at hit
          by_cases hseen : seen.contains
              (normalizeNo (pyStrip (cleanedGetStr (buildCleaned fields item i) "no"))) = true
          · rw [if_pos hseen] at hit
            exact ih seen (i + 1) it hit
          · rw [if_neg (by simpa using hseen)] at hit
            by_cases hc : hasContent fields (buildCleaned fields item i) = true
            · rw [if_pos hc] at hit
              rcases List.mem_cons.mp hit with h | h
              · rw [h]; exact hc
              · exact ih _ (i + 1) it h
            · rw [if_neg (by simpa using hc)] at hit
              exact ih _ (i + 1) it hit
        · rw [if_neg (by simpa using hno)] at hit
          by_cases hc : hasContent fields (buildCleaned fields item i) = true
          · rw [if_pos hc] at hit
            rcases List.mem_cons.mp hit with h | h
            · rw [h]; exact hc
            · exact ih seen (i + 1) it h
          · rw [if_neg (by simpa using hc)] at hit
            exact ih seen (i + 1) it hit
      · rw [if_neg (by simpa using hded)] at hit
        by_cases hc : hasContent fields (buildCleaned fields item i) = true
        · rw [if_pos hc] at hit
          rcases List.mem_cons.mp hit with h | h
          · rw [h]; exact hc
          · exact ih seen (i + 1) it h
        · rw [if_neg (by simpa using hc)] at hit
          exact ih seen (i + 1) it hit

/-- Without equipment deduplication the loop keeps exactly the entries
passing the content test. -/
theorem cleanLoop_length_no_dedup (fields : List String)
    (hnd : (fields.contains "equipment" && fields.contains "no") = false)
    (raw : List RawEntry) (seen : List String) (i : Nat) :
    (cleanLoop fields seen i raw).length = raw.countP (rowKept fields) := by
  induction raw generalizing seen i with
  | nil => simp [cleanLoop]
  | cons e rest ih =>
    cases e with
    | nondict =>
      simp only [cleanLoop, List.countP_cons]
      rw [ih seen (i + 1)]
      simp [rowKept]
    | dict item =>
      simp only [cleanLoop, hnd, Bool.false_eq_true, if_false, List.countP_cons]
      by_cases hc : hasContent fields (buildCleaned fields item i) = true
      · rw [if_pos hc]
        have : rowKept fields (RawEntry.dict item) = true := by
          rw [rowKept, ← hasContent_buildCleaned fields item i]; exact hc
        simp [this, ih seen (i + 1)]
      · rw [if_neg (by simpa using hc)]
        have : rowKept fields (RawEntry.dict item) = false := by
          rw [rowKept, ← hasContent_buildCleaned fields item i]; simpa using hc
        simp [this, ih seen (i + 1)]

/-- A member of the renumbered list is a member of the original list with
its serial reassigned. -/
theorem mem_renumberFrom {l : List (List (String × PyVal))} {n : Nat}
    {it : List (String × PyVal)} (hit : it ∈ renumberFrom n l) :
    ∃ it' ∈ l, ∃ m : Nat, it = setAssoc it' "sn" (PyVal.int m) := by
  induction l generalizing n with
  | nil => simp [renumberFrom] at hit
  | cons x xs ih =>
    simp only [renumberFrom, List.mem_cons] at hit
    rcases hit with h | h
    · exact ⟨x, by simp, n + 1, h⟩
    · rcases ih h with ⟨it', hm, m, he⟩
      exact ⟨it', by simp [hm], m, he⟩

/-- C2 (counterexample). An `activities` row whose `description` cleans to
the empty string but whose `location` does not survives normalization
unchanged, so a row is not discarded exactly when its description is empty
after cleaning. -/
theorem activity_blank_description_row_kept :
    validateAndCleanList activityFields
        [.dict [("sn", .int 1), ("description", .str "   "), ("location", .str "Zone A"),
                ("quantity", .str ""), ("unit", .str "")]] =
      [[("sn", .int 1), ("description", .str ""), ("location", .str "Zone A"),
        ("quantity", .str ""), ("unit", .str "")]] ∧
      cleanFieldVal [("sn", PyVal.int 1), ("description", PyVal.str "   "),
          ("location", PyVal.str "Zone A"), ("quantity", PyVal.str ""),
          ("unit", PyVal.str "")] "description" = "" := by decide

/-- C2 (amended). Empty-row suppression as the code implements it: in the
sections without equipment deduplication (`activities`, `personnel`,
`unsafe_acts`, `materials`), a raw entry survives normalization exactly
when it is dictionary-shaped and at least one of its declared non-`sn`
fields is non-empty after cleaning — an `activities` row with blank
description is dropped only when its other declared fields are blank too;
and every surviving row has meaningful content. -/
theorem empty_row_suppression_amended (fields : List String) (raw : List RawEntry)
    (hnd : (fields.contains "equipment" && fields.contains "no") = false) :
    (validateAndCleanList fields raw).length = raw.countP (rowKept fields) ∧
      ∀ it ∈ validateAndCleanList fields raw, hasContent fields it = true := by
  constructor
  · unfold validateAndCleanList
    rw [renumberFrom_length]
    exact cleanLoop_length_no_dedup fields hnd raw [] 0
  · intro it hit
    unfold validateAndCleanList at hit
    rcases mem_renumberFrom hit with ⟨it', hm, m, he⟩
    rw [he, hasContent_renumber]
    exact cleanLoop_content fields raw [] 0 it' hm

/-- C2 (witness). The amended suppression rule evaluated on a concrete
activities list: one contentful row, one blank row, one non-dict entry. -/
theorem empty_row_suppression_witness :
    (validateAndCleanList activityFields
          [.dict [("description", .str "Dig trench")],
           .dict [("description", .str "  ")], RawEntry.nondict]).length =
        ([RawEntry.dict [("description", .str "Dig trench")],
          RawEntry.dict [("description", .str "  ")], RawEntry.nondict].countP
          (rowKept activityFields)) ∧
      ∀ it ∈ validateAndCleanList activityFields
          [.dict [("description", .str "Dig trench")],
           .dict [("description", .str "  ")], RawEntry.nondict],
        hasContent activityFields it = true :=
  empty_row_suppression_amended activityFields
    [.dict [("description", .str "Dig trench")],
     .dict [("description", .str "  ")], RawEntry.nondict] (by decide)

/-- The cleaned equipment number of a row, as the dedup logic reads it. -/
def rowNo (it : List (String × PyVal)) : String := pyStrip (cleanedGetStr it "no")

/-- Distinctness of normalized equipment numbers between two rows, blank
numbers exempt. -/
def DistinctNo (a b : List (String × PyVal)) : Prop :=
  rowNo a = "" ∨ rowNo b = "" ∨ normalizeNo (rowNo a) ≠ normalizeNo (rowNo b)

/-- Invariant of the equipment-dedup loop: retained rows avoid the seen
set and are pairwise distinct on non-blank normalized numbers. -/
theorem cleanLoop_dedup_invariant (fields : List String)
    (hd : (fields.contains "equipment" && fields.contains "no") = true)
    (raw : List RawEntry) :
    ∀ seen i,
      (∀ it ∈ cleanLoop fields seen i raw,
        rowNo it ≠ "" → seen.contains (normalizeNo (rowNo it)) = false) ∧
      (cleanLoop fields seen i raw).Pairwise DistinctNo := by
  induction raw with
  | nil => intro seen i; simp [cleanLoop]
  | cons e rest ih =>
    intro seen i
    cases e with
    | nondict => simpa [cleanLoop] using ih seen (i + 1)
    | dict item =>
      simp only [cleanLoop, hd, if_true]
      set ci := buildCleaned fields item i with hci
      by_cases hno : pyStrip (cleanedGetStr ci "no") = ""
      · rw [if_neg (by simpa using hno)]
        by_cases hc : hasContent fields ci = true
        · rw [if_pos hc]
          refine ⟨?_, ?_⟩
          · intro it hit hne
            rcases List.mem_cons.mp hit with h | h
            · exact absurd (h ▸ hno) (by simpa [rowNo] using hne)
            · exact (ih seen (i + 1)).1 it h hne
          · refine List.pairwise_cons.mpr ⟨fun b hb => Or.inl ?_, (ih seen (i + 1)).2⟩
            simpa [rowNo] using hno
        · rw [if_neg (by simpa using hc)]
          exact ih seen (i + 1)
      · rw [if_pos (by simpa using hno)]
        by_cases hseen : seen.contains (normalizeNo (pyStrip (cleanedGetStr ci "no"))) = true
        · rw [if_pos hseen]
          exact ih seen (i + 1)
        · rw [if_neg (by simpa using hseen)]
          by_cases hc : hasContent fields ci = true
          · rw [if_pos hc]
            refine ⟨?_, ?_⟩
            · intro it hit hne
              rcases List.mem_cons.mp hit with h | h
              · rw [h]
                simpa [rowNo] using hseen
              · have := (ih (normalizeNo (pyStrip (cleanedGetStr ci "no")) :: seen) (i + 1)).1
                  it h hne
                simp only [List.contains_cons, Bool.or_eq_false_iff] at this
                exact this.2
            · refine List.pairwise_cons.mpr ⟨fun b hb => ?_,
                (ih (normalizeNo (pyStrip (cleanedGetStr ci "no")) :: seen) (i + 1)).2⟩
              by_cases hbno : rowNo b = ""
              · exact Or.inr (Or.inl hbno)
              · refine Or.inr (Or.inr ?_)
                have hmem := (ih (normalizeNo (pyStrip (cleanedGetStr ci "no")) :: seen) (i + 1)).1
                  b hb hbno
                simp only [List.contains_cons, Bool.or_eq_false_iff, beq_eq_false_iff_ne] at hmem
                exact fun hc' => hmem.1 hc'.symm
          · rw [if_neg (by simpa using hc)]
            have h' := ih (normalizeNo (pyStrip (cleanedGetStr ci "no")) :: seen) (i + 1)
            refine ⟨fun it hit hne => ?_, h'.2⟩
            have := h'.1 it hit hne
            simp only [List.contains_cons, Bool.or_eq_false_iff] at this
            exact this.2

/-- Renumbering preserves any relation that ignores the serial field. -/
theorem pairwise_renumberFrom {R : List (String × PyVal) → List (String × PyVal) → Prop}
    (hR : ∀ a b v w, R a b → R (setAssoc a "sn" v) (setAssoc b "sn" w))
    (l : List (List (String × PyVal))) :
    ∀ n, l.Pairwise R → (renumberFrom n l).Pairwise R := by
  induction l with
  | nil => intro n _; simp [renumberFrom]
  | cons x xs ih =>
    intro n hp
    rcases List.pairwise_cons.mp hp with ⟨hx, hxs⟩
    refine List.pairwise_cons.mpr ⟨fun z hz => ?_, ih (n + 1) hxs⟩
    rcases mem_renumberFrom hz with ⟨y, hy, m, he⟩
    rw [he]
    exact hR x y _ _ (hx y hy)

/-- C3 (counterexample). Two equipment rows numbered `AB-12` and `ab 12`
normalize to different keys (`AB-12` vs `AB12` — the hyphen survives), so
both rows are retained, contradicting the claim that exactly one is. -/
theorem equipment_dedup_example_fails :
    (validateAndCleanList equipmentFields
        [.dict [("equipment", .str "Truck"), ("no", .str "AB-12")],
         .dict [("equipment", .str "Truck"), ("no", .str "ab 12")]]).length = 2 ∧
      normalizeNo "AB-12" = "AB-12" ∧ normalizeNo "ab 12" = "AB12" := by decide

/-- C3 (amended). Equipment deduplication as the code implements it: rows
whose cleaned `no` is non-empty are deduplicated by the whitespace-removed,
upper-cased number — first occurrence wins — but punctuation is preserved
by the normalization, so `"AB-12"` and `"ab 12"` are distinct keys and both
rows are retained; the final list has pairwise distinct normalized numbers
among rows with non-blank `no`. -/
theorem equipment_normalized_no_unique (raw : List RawEntry) :
    (validateAndCleanList equipmentFields raw).Pairwise DistinctNo := by
  unfold validateAndCleanList
  refine pairwise_renumberFrom (fun a b v w hab => ?_) _ 0
    ((cleanLoop_dedup_invariant equipmentFields (by decide) raw [] 0).2)
  unfold DistinctNo rowNo at *
  rw [cleanedGetStr_renumber a v "no" (by decide), cleanedGetStr_renumber b w "no" (by decide)]
  exact hab

/-- C4 (counterexample). A date matching the second pattern is not
reordered: `2024/7/3` becomes `2024-07-3`, not the claimed zero-padded
`DD-MM-YYYY` form `03-07-2024`. -/
theorem date_pattern2_not_ddmmyyyy :
    pyValidateDate (.str "2024/7/3") = "2024-07-3" ∧
      "2024-07-3" ≠ "03-07-2024" := by decide

/-- C4 (amended). Date best-effort canonicalization as implemented: the
three positional patterns are tried in order, and on the first match the
three captured groups are rejoined in captured order as
`g1.zfill(2)-g2.zfill(2)-g3` — so only the first pattern yields
`DD-MM-YYYY` (`3/7/2024` → `03-07-2024`), the second keeps the year first
(`2024/7/3` → `2024-07-3`) and the third keeps the alphabetic month
(`3 July 2024` → `03-July-2024`); when no pattern matches anywhere in the
string, the trimmed original is returned unchanged. -/
theorem date_canonicalization_amended :
    pyValidateDate (.str "3/7/2024") = "03-07-2024" ∧
      pyValidateDate (.str "2024/7/3") = "2024-07-3" ∧
      pyValidateDate (.str "3 July 2024") = "03-July-2024" ∧
      ∀ s : String, s ≠ "" → s ≠ "null" →
        scanSearch dateP1At s.toList = Option.none →
        scanSearch dateP2At s.toList = Option.none →
        scanSearch dateP3At s.toList = Option.none →
        pyValidateDate (.str s) = pyStrip s := by
  refine ⟨by decide, by decide, by decide, ?_⟩
  intro s h0 hn h1 h2 h3
  have hc : (!(PyVal.str s).truthy || (PyVal.str s == PyVal.str "null")) = false := by
    simp [PyVal.truthy, h0, hn]
  unfold pyValidateDate
  rw [hc]
  simp only [Bool.false_eq_true, if_false, PyVal.toPyStr]
  unfold pyValidateDateStr
  rw [h1, h2, h3]

/-- C4 (witness). A free-text date matches none of the patterns and passes
through trimmed. -/
theorem date_canonicalization_witness :
    pyValidateDate (.str "created last Tuesday") = pyStrip "created last Tuesday" :=
  date_canonicalization_amended.2.2.2 "created last Tuesday" (by decide) (by decide)
    (by decide) (by decide) (by decide)

/-- C7 (code bug evaluation). Normalization injects a serial number into
every cleaned row, `materials` included: the cleaned materials row carries
an `sn` key, although the repository's extraction-prompt schema and its
`MaterialData` dataclass both give materials rows no `sn` field. -/
theorem materials_row_gains_sn_field :
    validateAndCleanList materialFields
        [.dict [("type", .str "Cement"), ("unit", .str "bags"), ("quantity", .str "10"),
                ("location", .str "")]] =
      [[("sn", .int 1), ("type", .str "Cement"), ("unit", .str "bags"),
        ("quantity", .str "10"), ("location", .str "")]] ∧
      dictGet [("sn", PyVal.int 1), ("type", PyVal.str "Cement"), ("unit", PyVal.str "bags"),
          ("quantity", PyVal.str "10"), ("location", PyVal.str "")] "sn" =
        some (PyVal.int 1) := by decide

/-- C10. Blank equipment numbers bypass deduplication: two equipment rows
with empty `no` and the same non-blank equipment text are both retained
and re-sequenced, so the normalized list contains duplicate rows. -/
theorem blank_no_equipment_rows_bypass_dedup (e : String)
    (h : pyCleanText e ≠ "") :
    validateAndCleanList equipmentFields
        [.dict [("equipment", .str e), ("no", .str "")],
         .dict [("equipment", .str e), ("no", .str "")]] =
      [[("sn", .int 1), ("equipment", .str (pyCleanText e)), ("no", .str ""),
        ("operating_hours", .str ""), ("idle_hours", .str ""), ("status", .str ""),
        ("remarks", .str "")],
       [("sn", .int 2), ("equipment", .str (pyCleanText e)), ("no", .str ""),
        ("operating_hours", .str ""), ("idle_hours", .str ""), ("status", .str ""),
        ("remarks", .str "")]] := by
  have he : e ≠ "" := by
    intro h0
    exact h (by rw [h0]; decide)
  simp [validateAndCleanList, cleanLoop, buildCleaned, cleanFieldVal, dictGet,
    cleanedGetStr, hasContent, renumberFrom, setAssoc, PyVal.truthy, PyVal.toPyStr,
    equipmentFields, pyStrip, pyStripChars, pyIsSpace, he, h]

/-- C10 (witness). The duplicate-retention fact evaluated at a concrete
equipment text. -/
theorem blank_no_equipment_rows_bypass_dedup_witness :
    validateAndCleanList equipmentFields
        [.dict [("equipment", .str "Excavator"), ("no", .str "")],
         .dict [("equipment", .str "Excavator"), ("no", .str "")]] =
      [[("sn", .int 1), ("equipment", .str (pyCleanText "Excavator")), ("no", .str ""),
        ("operating_hours", .str ""), ("idle_hours", .str ""), ("status", .str ""),
        ("remarks", .str "")],
       [("sn", .int 2), ("equipment", .str (pyCleanText "Excavator")), ("no", .str ""),
        ("operating_hours", .str ""), ("idle_hours", .str ""), ("status", .str ""),
        ("remarks", .str "")]] :=
  blank_no_equipment_rows_bypass_dedup "Excavator" (by decide)

/-- `flatMap` only depends on the function's values on the list. -/
theorem flatMapCongr {l : List α} {f g : α → List β} (h : ∀ x ∈ l, f x = g x) :
    l.flatMap f = l.flatMap g := by
  induction l with
  | nil => rfl
  | cons x xs ih =>
    simp only [List.flatMap_cons]
    rw [h x (by simp), ih (fun y hy => h y (by simp [hy]))]

/-- With both sub-columns full, the indices drawn by a two-sub-column
section are the interleaving of left and right slots. -/
theorem drawnTwoColRows_map_fst (k : Nat) (items : List α) (h : 2 * k ≤ items.length) :
    (drawnTwoColRows k items).map Prod.fst =
      (List.range k).flatMap (fun i => [i, i + k]) := by
  unfold drawnTwoColRows
  rw [List.map_flatMap]
  refine flatMapCongr (fun i hi => ?_)
  have hik : i < k := List.mem_range.mp hi
  have h1 : i < items.length := by omega
  have h2 : i + k < items.length := by omega
  rw [List.get?_eq_get h1, List.get?_eq_get h2]
  simp

/-- Every drawn pair of a two-sub-column section is an in-range item at
its own index. -/
theorem mem_drawnTwoColRows {k : Nat} {items : List α} {q : Nat × α}
    (hq : q ∈ drawnTwoColRows k items) : q.1 < 2 * k ∧ items.get? q.1 = some q.2 := by
  unfold drawnTwoColRows at hq
  rcases List.mem_flatMap.mp hq with ⟨i, hi, hmem⟩
  have hik : i < k := List.mem_range.mp hi
  rcases List.mem_append.mp hmem with hm | hm
  · cases hg : items.get? i with
    | none => rw [hg] at hm; simp at hm
    | some x =>
      rw [hg] at hm
      simp only [Option.map_some', Option.toList_some, List.mem_singleton] at hm
      rw [hm]
      exact ⟨by omega, hg⟩
  · cases hg : items.get? (i + k) with
    | none => rw [hg] at hm; simp at hm
    | some x =>
      rw [hg] at hm
      simp only [Option.map_some', Option.toList_some, List.mem_singleton] at hm
      rw [hm]
      exact ⟨by omega, hg⟩

/-- The unsafe-acts table draws the first `min 2 n` rows in order. -/
theorem drawnUnsafeActRows_map_fst (us : List α) :
    (drawnUnsafeActRows us).map Prod.fst = List.range (min 2 us.length) := by
  match us with
  | [] => rfl
  | [a] => rfl
  | a :: b :: t =>
    have hm : min 2 (t.length + 2) = 2 := by omega
    simp [drawnUnsafeActRows, hm, List.range_succ]

/-- C8. Render capacity clipping: with at least 28 personnel rows the
personnel section draws exactly the items of indices `0..27` (14 per
sub-column), each at its own index, and nothing else; the equipment
section caps at 10 the same way; the unsafe-acts section draws the first
`min 2 n` rows. Excess rows appear nowhere in the drawn data. -/
theorem render_capacity_clipping {α : Type} (ps es us : List α)
    (hp : 28 ≤ ps.length) (he : 10 ≤ es.length) :
    ((drawnPersonnelRows ps).map Prod.fst).Perm (List.range 28) ∧
      (∀ q ∈ drawnPersonnelRows ps, q.1 < 28 ∧ ps.get? q.1 = some q.2) ∧
      ((drawnEquipmentRows es).map Prod.fst).Perm (List.range 10) ∧
      (∀ q ∈ drawnEquipmentRows es, q.1 < 10 ∧ es.get? q.1 = some q.2) ∧
      (drawnUnsafeActRows us).map Prod.fst = List.range (min 2 us.length) := by
  refine ⟨?_, ?_, ?_, ?_, drawnUnsafeActRows_map_fst us⟩
  · rw [show drawnPersonnelRows ps = drawnTwoColRows 14 ps from rfl,
      drawnTwoColRows_map_fst 14 ps (by omega)]
    decide
  · intro q hq
    exact mem_drawnTwoColRows hq
  · rw [show drawnEquipmentRows es = drawnTwoColRows 5 es from rfl,
      drawnTwoColRows_map_fst 5 es (by omega)]
    decide
  · intro q hq
    exact mem_drawnTwoColRows hq

/-- C8 (witness). The clipping facts evaluated on concrete lists of 40
personnel rows, 12 equipment rows and 3 unsafe acts. -/
theorem render_capacity_clipping_witness :
    ((drawnPersonnelRows (List.range 40)).map Prod.fst).Perm (List.range 28) ∧
      (∀ q ∈ drawnPersonnelRows (List.range 40),
        q.1 < 28 ∧ (List.range 40).get? q.1 = some q.2) ∧
      ((drawnEquipmentRows (List.range 12)).map Prod.fst).Perm (List.range 10) ∧
      (∀ q ∈ drawnEquipmentRows (List.range 12),
        q.1 < 10 ∧ (List.range 12).get? q.1 = some q.2) ∧
      (drawnUnsafeActRows (List.range 3)).map Prod.fst =
        List.range (min 2 (List.range 3).length) :=
  render_capacity_clipping (List.range 40) (List.range 12) (List.range 3)
    (by decide) (by decide)

/-- The truncation loop's result is empty or fits together with the
ellipsis, given enough fuel. -/
theorem truncFit_fits (w : Char → Nat) (maxW : Nat) :
    ∀ fuel cs, cs.length ≤ fuel →
      truncFit w maxW fuel cs = [] ∨
        strWidth w (truncFit w maxW fuel cs ++ ellipsisChars) ≤ maxW := by
  intro fuel
  induction fuel with
  | zero =>
    intro cs h
    have : cs = [] := List.length_eq_zero.mp (Nat.le_zero.mp h)
    left
    rw [this]
    rfl
  | succ fuel ih =>
    intro cs h
    match cs with
    | [] => left; rfl
    | c :: cs' =>
      simp only [truncFit]
      by_cases hw : strWidth w ((c :: cs') ++ ellipsisChars) > maxW
      · rw [if_pos hw]
        refine ih (c :: cs').dropLast ?_
        have := List.length_dropLast (c :: cs')
        simp only [List.length_cons] at this h ⊢
        omega
      · rw [if_neg hw]
        right
        omega

/-- When the truncation loop erases everything, even the first character
with the ellipsis exceeded the width. -/
theorem truncFit_empty_head (w : Char → Nat) (maxW : Nat) :
    ∀ fuel cs, cs.length ≤ fuel → cs ≠ [] → truncFit w maxW fuel cs = [] →
      maxW < strWidth w (cs.take 1 ++ ellipsisChars) := by
  intro fuel
  induction fuel with
  | zero =>
    intro cs h hne _
    exact absurd (List.length_eq_zero.mp (Nat.le_zero.mp h)) hne
  | succ fuel ih =>
    intro cs h hne hr
    match cs with
    | [] => exact absurd rfl hne
    | c :: cs' =>
      simp only [truncFit] at hr
      by_cases hw : strWidth w ((c :: cs') ++ ellipsisChars) > maxW
      · rw [if_pos hw] at hr
        match cs' with
        | [] => simpa [strWidth] using hw
        | d :: ds =>
          have hdl : (c :: d :: ds).dropLast = c :: (d :: ds).dropLast := rfl
          rw [hdl] at hr
          have h2 : ((d :: ds).dropLast).length = ds.length := by
            rw [List.length_dropLast]
            simp
          have hlen : (c :: (d :: ds).dropLast).length ≤ fuel := by
            simp only [List.length_cons, h2] at h ⊢
            omega
          have hres := ih (c :: (d :: ds).dropLast) hlen (by simp) hr
          simpa using hres
      · rw [if_neg hw] at hr
        exact absurd hr (by simp)

/-- A non-empty string has a non-empty character list. -/
theorem toList_ne_nil {s : String} (h : s ≠ "") : s.toList ≠ [] := by
  intro hc
  apply h
  cases s
  simp only [String.toList] at hc
  rw [hc]

/-- C9 (counterexample). `_draw_text_in_cell` does not pack words into
lines: with unit character widths, width 2 and a two-line budget the
spec's policy would lay out `"ab cd"` as two lines `ab` / `cd`, but the
routine draws the single string `""`, which does not end with an
ellipsis. -/
theorem text_fit_no_line_packing :
    drawTextInCell (fun _ => 1) "ab cd" 2 = some "" ∧
      specFitTextLines (fun _ => 1) 2 2 "ab cd" = ["ab", "cd"] ∧
      ∀ u : String, ("" : String) ≠ u ++ "..." := by
  refine ⟨by decide, by decide, fun u h => ?_⟩
  have hlen := congrArg String.length h
  rw [String.length_append] at hlen
  rw [show ("" : String).length = 0 from rfl, show ("..." : String).length = 3 from rfl] at hlen
  omega

/-- C9 (amended). The cell text-fit as implemented is single-line: text
that fits is drawn unchanged; text that does not fit is truncated from the
end until it fits together with an appended ellipsis, and the drawn string
then ends with the ellipsis and fits the width — except that when not even
the first character plus the ellipsis fits, the empty string is drawn. -/
theorem text_fit_single_line_truncation (w : Char → Nat) (text : String) (maxW : Nat)
    (hne : text ≠ "") :
    (strWidth w text.toList ≤ maxW → drawTextInCell w text maxW = some text) ∧
      (maxW < strWidth w text.toList →
        ∃ o : String, drawTextInCell w text maxW = some o ∧
          ((o = "" ∧ maxW < strWidth w (text.toList.take 1 ++ ellipsisChars)) ∨
            ((∃ t, o.toList = t ++ ellipsisChars) ∧ strWidth w o.toList ≤ maxW))) := by
  have hbe : (text == "") = false := by
    simp [hne]
  constructor
  · intro hfit
    unfold drawTextInCell
    rw [hbe]
    simp only [Bool.false_eq_true, if_false]
    rw [if_pos hfit]
  · intro hwide
    unfold drawTextInCell
    rw [hbe]
    simp only [Bool.false_eq_true, if_false]
    rw [if_neg (by omega)]
    by_cases hemp : (truncFit w maxW text.toList.length text.toList).isEmpty = true
    · refine ⟨"", by rw [if_pos hemp], Or.inl ⟨rfl, ?_⟩⟩
      exact truncFit_empty_head w maxW text.toList.length text.toList le_rfl
        (toList_ne_nil hne) (List.isEmpty_iff.mp hemp)
    · have hne' : truncFit w maxW text.toList.length text.toList ≠ [] := by
        simpa [List.isEmpty_iff] using hemp
      refine ⟨String.mk (truncFit w maxW text.toList.length text.toList ++ ellipsisChars),
        by rw [if_neg hemp], Or.inr ⟨⟨truncFit w maxW text.toList.length text.toList, rfl⟩, ?_⟩⟩
      rcases truncFit_fits w maxW text.toList.length text.toList le_rfl with h | h
      · exact absurd h hne'
      · exact h

/-- C9 (witness). The single-line truncation facts evaluated with unit
widths on a 12-character string in an 8-unit cell. -/
theorem text_fit_single_line_truncation_witness :
    (strWidth (fun _ => 1) "hello world!".toList ≤ 8 →
        drawTextInCell (fun _ => 1) "hello world!" 8 = some "hello world!") ∧
      (8 < strWidth (fun _ => 1) "hello world!".toList →
        ∃ o : String, drawTextInCell (fun _ => 1) "hello world!" 8 = some o ∧
          ((o = "" ∧ 8 < strWidth (fun _ => 1) ("hello world!".toList.take 1 ++ ellipsisChars)) ∨
            ((∃ t, o.toList = t ++ ellipsisChars) ∧ strWidth (fun _ => 1) o.toList ≤ 8))) :=
  text_fit_single_line_truncation (fun _ => 1) "hello world!" 8 (by decide)

/-- C6 (counterexample). A response consisting of a malformed brace region
parses to an absent result even though the third tier (regex key-value
extraction) is total and would have produced a dictionary — so an absent
result does not require all three tiers to fail. -/
theorem parse_response_none_despite_fallback :
    parseGeminiResponse "\x7bnot json\x7d" = Option.none ∧
      extractKeyValueFromText "\x7bnot json\x7d" = defaultExtracted := by decide

/-- C6 (amended). The three tiers chain differently than claimed: when the
stripped response contains a first-brace-to-last-brace region, only that
region is tried, and its parse failure yields an absent result directly;
the whole-text parse and the regex extraction (which always returns a
dictionary) run only when no brace region exists. Hence the result is
absent exactly when a brace region exists and is not valid JSON. -/
theorem parse_response_none_iff_brace_region_invalid (s : String) :
    parseGeminiResponse s = Option.none ↔
      ∃ sub, braceSpan (pyStrip s) = some sub ∧ jsonValid sub = false := by
  unfold parseGeminiResponse
  cases hb : braceSpan (pyStrip s) with
  | none =>
    by_cases hv : jsonValid (pyStrip s) = true
    · simp [hb, hv]
    · simp [hb, hv]
  | some sub =>
    by_cases hv : jsonValid sub = true
    · simp [hb, hv]
    · simp [hb, hv]

/-- Every row the main loop emits is a built cleaned item. -/
theorem mem_cleanLoop_shape (fields : List String) (raw : List RawEntry) :
    ∀ seen i, ∀ it ∈ cleanLoop fields seen i raw,
      ∃ item j, it = buildCleaned fields item j := by
  induction raw with
  | nil => intro seen i it hit; simp [cleanLoop] at hit
  | cons e rest ih =>
    intro seen i it hit
    cases e with
    | nondict => exact ih seen (i + 1) it (by simpa [cleanLoop] using hit)
    | dict item =>
      simp only [cleanLoop] at hit
      by_cases hded : (fields.contains "equipment" && fields.contains "no") = true
      · rw [if_pos hded] at hit
        by_cases hno : (pyStrip (cleanedGetStr (buildCleaned fields item i) "no") != "") = true
        · rw [if_pos hno] at hit
          by_cases hseen : seen.contains
              (normalizeNo (pyStrip (cleanedGetStr (buildCleaned fields item i) "no"))) = true
          · rw [if_pos hseen] at hit
            exact ih seen (i + 1) it hit
          · rw [if_neg (by simpa using hseen)] at hit
            by_cases hc : hasContent fields (buildCleaned fields item i) = true
            · rw [if_pos hc] at hit
              rcases List.mem_cons.mp hit with h | h
              · exact ⟨item, i, h⟩
              · exact ih _ (i + 1) it h
            · rw [if_neg (by simpa using hc)] at hit
              exact ih _ (i + 1) it hit
        · rw [if_neg (by simpa using hno)] at hit
          by_cases hc : hasContent fields (buildCleaned fields item i) = true
          · rw [if_pos hc] at hit
            rcases List.mem_cons.mp hit with h | h
            · exact ⟨item, i, h⟩
            · exact ih seen (i + 1) it h
          · rw [if_neg (by simpa using hc)] at hit
            exact ih seen (i + 1) it hit
      · rw [if_neg (by simpa using hded)] at hit
        by_cases hc : hasContent fields (buildCleaned fields item i) = true
        · rw [if_pos hc] at hit
          rcases List.mem_cons.mp hit with h | h
          · exact ⟨item, i, h⟩
          · exact ih seen (i + 1) it h
        · rw [if_neg (by simpa using hc)] at hit
          exact ih seen (i + 1) it hit

/-- Reassigning the same key twice keeps the last value only. -/
theorem setAssoc_setAssoc (l : List (String × α)) (k : String) (v w : α) :
    setAssoc (setAssoc l k v) k w = setAssoc l k w := by
  induction l with
  | nil => simp [setAssoc]
  | cons p rest ih =>
    rcases p with ⟨k₀, v₀⟩
    by_cases h : k₀ = k
    · simp [setAssoc, h]
    · simp [setAssoc, h, ih]

/-- Renumbering is idempotent. -/
theorem renumberFrom_idem (l : List (List (String × PyVal))) :
    ∀ n, renumberFrom n (renumberFrom n l) = renumberFrom n l := by
  induction l with
  | nil => intro n; rfl
  | cons it rest ih =>
    intro n
    simp only [renumberFrom, setAssoc_setAssoc]
    rw [ih (n + 1)]

/-- A text value unchanged by a second cleaning pass (empty values are
cleaned to empty by the falsy short-circuit). -/
def StableText (s : String) : Prop := s = "" ∨ pyCleanText s = s

/-- Re-cleaning a stable string value is the identity. -/
theorem cleanPyVal_str_stable {s : String} (h : StableText s) :
    cleanPyVal (PyVal.str s) = s := by
  by_cases he : s = ""
  · simp [cleanPyVal, PyVal.truthy, he]
  · rcases h with h | h
    · exact absurd h he
    · simp [cleanPyVal, PyVal.truthy, PyVal.toPyStr, he, h]

/-- A renumbered built row: the serial slot is at the head. -/
theorem setAssoc_buildCleaned_sn (fields : List String) (item : List (String × PyVal))
    (j : Nat) (w : PyVal) :
    setAssoc (buildCleaned fields item j) "sn" w =
      ("sn", w) ::
        (fields.filter (fun f => f != "sn")).map
          (fun f => (f, PyVal.str (cleanFieldVal item f))) := by
  simp [buildCleaned, setAssoc]

/-- Cleaning a field whose stored value is a string applies the cleaner
to it unless it is empty. -/
theorem cleanFieldVal_of_get_str {r : List (String × PyVal)} {f : String} {s : String}
    (h : dictGet r f = some (PyVal.str s)) :
    cleanFieldVal r f = if s = "" then "" else pyCleanText s := by
  unfold cleanFieldVal
  rw [h]
  by_cases hs : s = "" <;> simp [PyVal.truthy, PyVal.toPyStr, hs]

/-- Rebuilding a cleaned-and-renumbered row is the identity when all its
cleaned field values are stable. -/
theorem buildCleaned_of_cleaned_row (fields : List String) (item : List (String × PyVal))
    (j i' : Nat) (w : PyVal)
    (hstab : ∀ f ∈ fields, f ≠ "sn" → StableText (cleanFieldVal item f)) :
    buildCleaned fields (setAssoc (buildCleaned fields item j) "sn" w) i' =
      setAssoc (buildCleaned fields item j) "sn" w := by
  rw [setAssoc_buildCleaned_sn]
  unfold buildCleaned
  refine congrArg₂ _ ?_ ?_
  · simp [dictGet]
  · refine List.map_congr_left (fun f hf => ?_)
    rcases List.mem_filter.mp hf with ⟨hmem, hfsn⟩
    have hfne : f ≠ "sn" := by simpa using hfsn
    have hget : dictGet (("sn", w) ::
        (fields.filter (fun x => x != "sn")).map
          (fun x => (x, PyVal.str (cleanFieldVal item x)))) f =
        some (PyVal.str (cleanFieldVal item f)) := by
      simp only [dictGet, beq_iff_eq, if_neg (fun hc : "sn" = f => hfne hc.symm)]
      rw [dictGet_keyMap (fields.filter (fun x => x != "sn"))
        (fun y => PyVal.str (cleanFieldVal item y)) f]
      rw [if_pos hf]
    refine congrArg _ (congrArg _ ?_)
    rw [cleanFieldVal_of_get_str hget]
    by_cases hs : cleanFieldVal item f = ""
    · simp [hs]
    · rcases hstab f hmem hfne with h | h
      · exact absurd h hs
      · simp [hs, h]

/-- Stability of the declared non-serial field values of a list of rows. -/
def RowsStable (fields : List String) (rows : List (List (String × PyVal))) : Prop :=
  ∀ r ∈ rows, ∀ f ∈ fields, f ≠ "sn" → StableText (cleanedGetStr r f)

/-- Serial reassignment respects the distinct-number relation. -/
theorem distinctNo_setAssoc (a b : List (String × PyVal)) (v w : PyVal)
    (hab : DistinctNo a b) :
    DistinctNo (setAssoc a "sn" v) (setAssoc b "sn" w) := by
  unfold DistinctNo rowNo at *
  rw [cleanedGetStr_renumber a v "no" (by decide), cleanedGetStr_renumber b w "no" (by decide)]
  exact hab

/-- Without equipment dedup, re-running the loop on already-cleaned
contentful rows that rebuild to themselves is the identity. -/
theorem cleanLoop_fixed_no_dedup (fields : List String)
    (hnd : (fields.contains "equipment" && fields.contains "no") = false) :
    ∀ rows : List (List (String × PyVal)),
      (∀ r ∈ rows, ∀ i, buildCleaned fields r i = r) →
      (∀ r ∈ rows, hasContent fields r = true) →
      ∀ seen i, cleanLoop fields seen i (rows.map RawEntry.dict) = rows := by
  intro rows
  induction rows with
  | nil => intro _ _ seen i; rfl
  | cons r rows ih =>
    intro hrebuild hcontent seen i
    simp only [List.map_cons, cleanLoop, hnd, Bool.false_eq_true, if_false]
    rw [hrebuild r (by simp) i, if_pos (hcontent r (by simp))]
    rw [ih (fun r' h' i' => hrebuild r' (by simp [h']) i')
      (fun r' h' => hcontent r' (by simp [h'])) seen (i + 1)]

/-- With equipment dedup, re-running the loop on already-cleaned
contentful rows with pairwise distinct non-blank normalized numbers not in
the seen set is the identity. -/
theorem cleanLoop_fixed_dedup (fields : List String)
    (hd : (fields.contains "equipment" && fields.contains "no") = true) :
    ∀ rows : List (List (String × PyVal)),
      (∀ r ∈ rows, ∀ i, buildCleaned fields r i = r) →
      (∀ r ∈ rows, hasContent fields r = true) →
      rows.Pairwise DistinctNo →
      ∀ seen i,
        (∀ r ∈ rows, rowNo r ≠ "" → seen.contains (normalizeNo (rowNo r)) = false) →
        cleanLoop fields seen i (rows.map RawEntry.dict) = rows := by
  intro rows
  induction rows with
  | nil => intro _ _ _ seen i _; rfl
  | cons r rows ih =>
    intro hrebuild hcontent hpair seen i hseen
    simp only [List.map_cons, cleanLoop, hd, if_true]
    rw [hrebuild r (by simp) i]
    by_cases hno : rowNo r = ""
    · rw [if_neg (show ¬((pyStrip (cleanedGetStr r "no") != "") = true) by
        simpa [rowNo] using hno)]
      rw [if_pos (hcontent r (by simp))]
      rw [ih (fun r' h' i' => hrebuild r' (by simp [h']) i')
        (fun r' h' => hcontent r' (by simp [h'])) (List.pairwise_cons.mp hpair).2 seen (i + 1)
        (fun r' h' hb => hseen r' (by simp [h']) hb)]
    · rw [if_pos (show (pyStrip (cleanedGetStr r "no") != "") = true by
        simpa [rowNo] using hno)]
      rw [if_neg (show ¬(seen.contains
          (normalizeNo (pyStrip (cleanedGetStr r "no"))) = true) by
        simpa [rowNo] using hseen r (by simp) hno)]
      rw [if_pos (hcontent r (by simp))]
      have htail := ih (fun r' h' i' => hrebuild r' (by simp [h']) i')
        (fun r' h' => hcontent r' (by simp [h'])) (List.pairwise_cons.mp hpair).2
        (normalizeNo (pyStrip (cleanedGetStr r "no")) :: seen) (i + 1) ?_
      · rw [htail]
      · intro r' h' hb
        simp only [List.contains_cons, Bool.or_eq_false_iff]
        refine ⟨?_, hseen r' (by simp [h']) hb⟩
        have hd2 := (List.pairwise_cons.mp hpair).1 r' h'
        rcases hd2 with h1 | h2 | h3
        · exact absurd h1 hno
        · exact absurd h2 hb
        · exact beq_eq_false_iff_ne.mpr (show normalizeNo (rowNo r') ≠
            normalizeNo (pyStrip (cleanedGetStr r "no")) from fun hc => h3 hc.symm)

/-- Normalizing the `to_dict` image of an already-normalized list is the
identity when every cleaned field value of the normalized rows is stable
under a second cleaning pass. -/
theorem validateAndCleanList_map_dict_fixed (fields : List String) (raw : List RawEntry)
    (hstab : RowsStable fields (validateAndCleanList fields raw)) :
    validateAndCleanList fields ((validateAndCleanList fields raw).map RawEntry.dict) =
      validateAndCleanList fields raw := by
  set rows := validateAndCleanList fields raw with hrows
  have hshape : ∀ r ∈ rows, ∃ item j w,
      r = setAssoc (buildCleaned fields item j) "sn" w := by
    intro r hr
    rw [hrows] at hr
    unfold validateAndCleanList at hr
    rcases mem_renumberFrom hr with ⟨r', hr', m, he⟩
    rcases mem_cleanLoop_shape fields raw [] 0 r' hr' with ⟨item, j, hij⟩
    exact ⟨item, j, PyVal.int m, by rw [he, hij]⟩
  have hrebuild : ∀ r ∈ rows, ∀ i, buildCleaned fields r i = r := by
    intro r hr i
    rcases hshape r hr with ⟨item, j, w, he⟩
    have hstab' : ∀ f ∈ fields, f ≠ "sn" → StableText (cleanFieldVal item f) := by
      intro f hmem hfne
      have hrow := hstab r hr f hmem hfne
      have hget : cleanedGetStr r f = cleanFieldVal item f := by
        rw [he]
        unfold cleanedGetStr
        rw [dictGet_setAssoc_ne _ _ _ _ hfne, dictGet_buildCleaned fields item j f hfne,
          if_pos hmem]
      rwa [hget] at hrow
    rw [he]
    exact buildCleaned_of_cleaned_row fields item j i w hstab'
  have hcontent : ∀ r ∈ rows, hasContent fields r = true := by
    intro r hr
    rw [hrows] at hr
    unfold validateAndCleanList at hr
    rcases mem_renumberFrom hr with ⟨r', hr', m, he⟩
    rw [he, hasContent_renumber]
    exact cleanLoop_content fields raw [] 0 r' hr'
  unfold validateAndCleanList
  by_cases hd : (fields.contains "equipment" && fields.contains "no") = true
  · have hpair : rows.Pairwise DistinctNo := by
      rw [hrows]
      unfold validateAndCleanList
      exact pairwise_renumberFrom distinctNo_setAssoc _ 0
        ((cleanLoop_dedup_invariant fields hd raw [] 0).2)
    rw [cleanLoop_fixed_dedup fields hd rows hrebuild hcontent hpair [] 0
      (fun r hr hb => rfl)]
    rw [hrows]
    unfold validateAndCleanList
    exact renumberFrom_idem _ 0
  · rw [cleanLoop_fixed_no_dedup fields (by simpa using hd) rows hrebuild hcontent [] 0]
    rw [hrows]
    unfold validateAndCleanList
    exact renumberFrom_idem _ 0

/-- Normalizing the `to_dict` image of a normalized list value is the
identity under stability of the cleaned values. -/
theorem convertList_idem (fields : List String) (lv : RawListVal)
    (hstab : RowsStable fields (convertList fields lv)) :
    validateAndCleanList fields ((convertList fields lv).map RawEntry.dict) =
      convertList fields lv := by
  cases lv with
  | list rows0 => exact validateAndCleanList_map_dict_fixed fields rows0 hstab
  | other => rfl

/-- Stability of a whole normalized record under a second normalization
pass: every cleaned text value is unchanged by a second cleaning, the date
by a second date pass. -/
def RecordStable (d : DailyDiaryData) : Prop :=
  StableText d.project ∧ StableText d.employer ∧ StableText d.consultant ∧
    StableText d.contractor ∧ StableText d.location ∧ StableText d.weather ∧
    StableText d.near_miss ∧ StableText d.obstruction ∧ StableText d.engineers_note ∧
    StableText d.prepared_by ∧ StableText d.checked_by ∧ StableText d.approved_by ∧
    StableText d.document_number ∧ StableText d.page_number ∧ StableText d.revision ∧
    pyValidateDate (.str d.date) = d.date ∧
    RowsStable activityFields d.activities ∧ RowsStable equipmentFields d.equipment ∧
    RowsStable personnelFields d.personnel ∧ RowsStable materialFields d.materials ∧
    RowsStable unsafeActFields d.unsafe_acts

/-- Stability of a single text value is decidable. -/
instance (s : String) : Decidable (StableText s) := by
  unfold StableText
  infer_instance

/-- Stability of a list of rows is decidable. -/
instance (fields : List String) (rows : List (List (String × PyVal))) :
    Decidable (RowsStable fields rows) := by
  unfold RowsStable
  infer_instance

/-- Stability of a record is decidable. -/
instance (d : DailyDiaryData) : Decidable (RecordStable d) := by
  unfold RecordStable
  infer_instance

/-- C5 (counterexample). Normalization is not idempotent: a raw `project`
value of `"null"` in quotes cleans to the literal string `null` on the
first pass, which the second pass erases to the empty string, so
normalizing the `to_dict` of the normalized record changes it. -/
theorem normalize_not_idempotent_null :
    (convertToDailyDiaryData { project := .str "\x22null\x22" }).project = "null" ∧
      (convertToDailyDiaryData (toRawDict (convertToDailyDiaryData
          { project := .str "\x22null\x22" }))).project = "" ∧
      convertToDailyDiaryData (toRawDict (convertToDailyDiaryData
          { project := .str "\x22null\x22" })) ≠
        convertToDailyDiaryData { project := .str "\x22null\x22" } := by decide

/-- C5 (amended). Normalization is idempotent on stable records: whenever
every cleaned text value of the once-normalized record is a fixed point of
the text cleaner (and the date of the date pass), normalizing the record's
`to_dict` reproduces the record field-for-field — in particular the list
passes drop no row, re-deduplicate nothing and re-derive the same serial
numbers. In general a second pass can change a record (for example a field
cleaned to the literal `null`, or a merged-word pattern re-firing across a
replacement seam). -/
theorem normalize_idempotent_on_stable_records (raw : RawRecord)
    (hstab : RecordStable (convertToDailyDiaryData raw)) :
    convertToDailyDiaryData (toRawDict (convertToDailyDiaryData raw)) =
      convertToDailyDiaryData raw := by
  obtain ⟨h1, h2, h3, h4, h5, h6, h7, h8, h9, h10, h11, h12, h13, h14, h15, hdate,
    ha, heq, hp, hm, hu⟩ := hstab
  simp only [convertToDailyDiaryData] at h1 h2 h3 h4 h5 h6 h7 h8 h9 h10 h11 h12 h13 h14 h15 hdate ha heq hp hm hu
  simp only [convertToDailyDiaryData, toRawDict, DailyDiaryData.mk.injEq]
  refine ⟨cleanPyVal_str_stable h1, cleanPyVal_str_stable h2, cleanPyVal_str_stable h3,
    cleanPyVal_str_stable h4, hdate, rfl, rfl, cleanPyVal_str_stable h5,
    cleanPyVal_str_stable h6, convertList_idem activityFields raw.activities ha,
    convertList_idem equipmentFields raw.equipment heq,
    convertList_idem personnelFields raw.personnel hp,
    convertList_idem materialFields raw.materials hm,
    convertList_idem unsafeActFields raw.unsafe_acts hu,
    cleanPyVal_str_stable h7, cleanPyVal_str_stable h8, cleanPyVal_str_stable h9,
    cleanPyVal_str_stable h10, cleanPyVal_str_stable h11, cleanPyVal_str_stable h12,
    cleanPyVal_str_stable h13, cleanPyVal_str_stable h14, cleanPyVal_str_stable h15⟩

/-- C5 (witness). Idempotence evaluated on a concrete stable record with a
project name, a date, one activity and one equipment row. -/
theorem normalize_idempotent_witness :
    convertToDailyDiaryData (toRawDict (convertToDailyDiaryData
        { project := .str "Alpha Dam", date := .str "01-02-2024",
          activities := .list [.dict [("description", .str "Dig trench")]],
          equipment := .list [.dict [("equipment", .str "Dozer"), ("no", .str "EX-7")]] })) =
      convertToDailyDiaryData
        { project := .str "Alpha Dam", date := .str "01-02-2024",
          activities := .list [.dict [("description", .str "Dig trench")]],
          equipment := .list [.dict [("equipment", .str "Dozer"), ("no", .str "EX-7")]] } :=
  normalize_idempotent_on_stable_records
    { project := .str "Alpha Dam", date := .str "01-02-2024",
      activities := .list [.dict [("description", .str "Dig trench")]],
      equipment := .list [.dict [("equipment", .str "Dozer"), ("no", .str "EX-7")]] }
    (by decide)
